import Mathlib

/-!
# Shallow embedding of the movie recommendation microservice

This file embeds the recommendation core of
`Python-recommendation-microservice/main.py` (class `RecommendationEngine`)
and proves properties of it.

Modelling conventions:
* Python floats are modelled as exact rationals (`ℚ`).
* The two irrational primitives the code uses (`math`-level square roots
  inside `sklearn`'s `cosine_similarity`, and `np.log` in the popularity
  score) cannot be represented exactly in `ℚ`; the embedding is therefore
  parameterised by a `NumModel` providing a square-root function, the
  function `count ↦ log (count + 1)`, and the TF-IDF vectorizer output
  (`TfidfVectorizer.fit_transform`, a third-party library call).  Theorems
  assume only properties that the real functions satisfy (e.g. positivity
  of the square root on positive inputs).
* Python dicts preserve insertion order; they are modelled as association
  lists with insert-at-end update (`updEntry`).
* `sorted(..., reverse=True)` is a stable sort; its output is modelled by
  `List.insertionSort`, which is also stable, with the corresponding
  "greater or equal" relation (a stable sort's output is uniquely
  determined by the ordering key and stability).
* `np.argsort` is modelled as a stable ascending argsort (numpy uses a
  stable insertion sort for the small arrays at issue).
* `pandas.pivot_table` sorts its index and columns lexicographically and
  averages duplicate entries; `usersOf`/`colsOf`/`cellOf` reproduce that.
* A Python exception escaping one of the recommenders is modelled by an
  `Option`-valued wrapper returning `none`.
-/

namespace MovieRec

/-- A rating record, as consumed by the engine (an element of
`ratings_cache`: `userId`, `movieId`, `score`). -/
structure Rating where
  userId : String
  movieId : String
  score : ℚ
deriving DecidableEq

/-- A movie record, as consumed by the engine (an element of
`movies_cache`). -/
structure Movie where
  id : String
  title : String
  description : String
  category : String
  releaseDate : String
deriving DecidableEq

/-- One entry of a recommendation result: `{"movieId": ..., "score": ...}`. -/
structure RecItem where
  movieId : String
  score : ℚ
deriving DecidableEq

/-- Numeric primitives that the Python code takes from numpy/sklearn and
that have no exact rational counterpart.  `sqrtQ` models the square root
used inside `cosine_similarity`; `log1p n` models `np.log (n + 1)` as used
in the popularity score; `tfidf` models `TfidfVectorizer.fit_transform`,
returning one feature vector per movie. -/
structure NumModel where
  sqrtQ : ℚ → ℚ
  log1p : ℕ → ℚ
  tfidf : List Movie → List (List ℚ)

/-- Insertion-ordered dictionary update: apply `f` to the value stored at
key `k`, or append `(k, d)` at the end if `k` is absent.  This is the
behaviour of Python dict writes. -/
def updEntry {β : Type} : List (String × β) → String → (β → β) → β → List (String × β)
  | [], k, _, d => [(k, d)]
  | (k', v) :: t, k, f, d =>
    if k' = k then (k', f v) :: t else (k', v) :: updEntry t k f d

/-- `if movie_id not in d: d[movie_id] = []` followed by
`d[movie_id].append(s)`. -/
def addContribution (l : List (String × List ℚ)) (k : String) (s : ℚ) :
    List (String × List ℚ) :=
  updEntry l k (fun v => v ++ [s]) [s]

/-- `d[k] += s` if present, else `d[k] = s` (the content half of the hybrid
blend loop). -/
def addWeighted (l : List (String × ℚ)) (k : String) (s : ℚ) :
    List (String × ℚ) :=
  updEntry l k (fun v => v + s) s

/-- `d[k] = s` (the collaborative half of the hybrid blend loop). -/
def setWeighted (l : List (String × ℚ)) (k : String) (s : ℚ) :
    List (String × ℚ) :=
  updEntry l k (fun _ => s) s

/-- `np.mean` of a list of rationals. -/
def meanQ (l : List ℚ) : ℚ := l.sum / (l.length : ℚ)

/-- Lexicographic (code-point) order on strings, as used by pandas when it
sorts an index.  Phrased on the character lists so that it evaluates by
kernel reduction. -/
def strLe (a b : String) : Prop := a.data ≤ b.data

instance : DecidableRel strLe :=
  fun a b => inferInstanceAs (Decidable (a.data ≤ b.data))

instance : IsTotal String strLe := ⟨fun a b => le_total a.data b.data⟩

instance : IsTrans String strLe := ⟨fun _ _ _ h h2 => le_trans h h2⟩

/-- The sorted list of distinct keys appearing in `l` — the index (or
column) labels produced by `pandas.pivot_table`. -/
def sortedKeys (l : List String) : List String :=
  l.dedup.insertionSort strLe

/-- `b` scores no more than `a`: the ordering used by
`sorted(..., key=lambda x: x[1], reverse=True)`. -/
def recGe (a b : RecItem) : Prop := b.score ≤ a.score

instance : DecidableRel recGe :=
  fun a b => inferInstanceAs (Decidable (b.score ≤ a.score))

instance : IsTotal RecItem recGe := ⟨fun a b => le_total b.score a.score⟩

instance : IsTrans RecItem recGe := ⟨fun _ _ _ h h2 => le_trans h2 h⟩

/-- Stable descending sort by score, the meaning of
`sorted(items, key=lambda x: x[1], reverse=True)`. -/
def sortDesc (l : List RecItem) : List RecItem := l.insertionSort recGe

/-- Dot product of two rational vectors. -/
def dotQ (u v : List ℚ) : ℚ := (List.zipWith (fun a b => a * b) u v).sum

/-- The norm factor `sklearn` divides a row by inside `cosine_similarity`:
the L2 norm, with zero norms replaced by 1 (so that all-zero rows stay
all-zero instead of producing NaN). -/
def normFactor (nm : NumModel) (v : List ℚ) : ℚ :=
  if dotQ v v = 0 then 1 else nm.sqrtQ (dotQ v v)

/-- `sklearn.metrics.pairwise.cosine_similarity` of two vectors. -/
def cosineSim (nm : NumModel) (u v : List ℚ) : ℚ :=
  dotQ u v / (normFactor nm u * normFactor nm v)

/-- Row labels of the user-item matrix built by `build_user_item_matrix`:
the sorted distinct user ids of the ratings snapshot. -/
def usersOf (rs : List Rating) : List String := sortedKeys (rs.map (·.userId))

/-- Column labels of the user-item matrix: the sorted distinct movie ids. -/
def colsOf (rs : List Rating) : List String := sortedKeys (rs.map (·.movieId))

/-- One cell of the user-item matrix: the mean of the matching ratings
(`pivot_table` default aggregation), `0` where there is none (`fillna(0)`). -/
def cellOf (rs : List Rating) (u mid : String) : ℚ :=
  let xs := (rs.filter (fun r => decide (r.userId = u ∧ r.movieId = mid))).map (·.score)
  if xs.isEmpty then 0 else meanQ xs

/-- One row of the user-item matrix. -/
def rowOf (rs : List Rating) (u : String) : List ℚ :=
  (colsOf rs).map (cellOf rs u)

/-- `cosine_similarity(user_ratings, self.user_item_matrix.values)[0]`:
the similarity of the target user's row with every row (the target's own
row included). -/
def simsOf (nm : NumModel) (rs : List Rating) (user : String) : List ℚ :=
  (usersOf rs).map (fun v => cosineSim nm (rowOf rs user) (rowOf rs v))

/-- The index comparison underlying `np.argsort`. -/
def idxLe (vals : List ℚ) (i j : ℕ) : Prop := vals.getD i 0 ≤ vals.getD j 0

instance (vals : List ℚ) : DecidableRel (idxLe vals) :=
  fun i j => inferInstanceAs (Decidable (vals.getD i 0 ≤ vals.getD j 0))

instance (vals : List ℚ) : IsTotal ℕ (idxLe vals) :=
  ⟨fun i j => le_total (vals.getD i 0) (vals.getD j 0)⟩

instance (vals : List ℚ) : IsTrans ℕ (idxLe vals) :=
  ⟨fun _ _ _ h h2 => le_trans h h2⟩

/-- `np.argsort(vals)`: the indices of `vals` stably sorted by value
ascending. -/
def argsortAsc (vals : List ℚ) : List ℕ :=
  (List.range vals.length).insertionSort (idxLe vals)

/-- `np.argsort(user_similarity)[::-1][1:11]`: the neighbour indices the
collaborative recommender scores with — positions 1..10 of the descending
argsort, NOT an explicit exclusion of the target user. -/
def neighborIdxs (nm : NumModel) (rs : List Rating) (user : String) : List ℕ :=
  (((argsortAsc (simsOf nm rs user)).reverse).drop 1).take 10

/-- The contribution dictionary built by the collaborative recommender:
for each neighbour (in neighbour order) and each column (in column order),
if the neighbour rated the movie (`> 0`) and the target user did not,
append `rating * similarity` to the movie's list. -/
def cfContribs (nm : NumModel) (rs : List Rating) (user : String) :
    List (String × List ℚ) :=
  (neighborIdxs nm rs user).foldl (fun acc idx =>
    (colsOf rs).foldl (fun acc2 mid =>
      if 0 < cellOf rs ((usersOf rs).getD idx "") mid ∧ ¬ 0 < cellOf rs user mid then
        addContribution acc2 mid
          (cellOf rs ((usersOf rs).getD idx "") mid * (simsOf nm rs user).getD idx 0)
      else acc2) acc) []

/-- `collaborative_filtering_recommendations`, in the situation where the
user-item matrix exists (nonempty ratings snapshot): empty result for an
unknown user, otherwise mean contribution per candidate movie, sorted by
score descending, truncated to `limit`. -/
def collaborative_core (nm : NumModel) (rs : List Rating) (user : String)
    (limit : ℕ) : List RecItem :=
  if user ∈ usersOf rs then
    (sortDesc ((cfContribs nm rs user).map (fun p => ⟨p.1, meanQ p.2⟩))).take limit
  else []

/-- `collaborative_filtering_recommendations` as invoked on a snapshot.
With an empty ratings snapshot `build_user_item_matrix` returns `None`
without assigning `self.user_item_matrix`, and the subsequent
`self.user_item_matrix.index` raises `AttributeError`; that raise is
modelled by `none`. -/
def collaborative_filtering_recommendations (nm : NumModel) (rs : List Rating)
    (user : String) (limit : ℕ) : Option (List RecItem) :=
  if rs.isEmpty then none else some (collaborative_core nm rs user limit)

/-- The contribution dictionary built by `content_based_recommendations`:
for each liked movie present in the movie index, walk its content
similarity row and append the similarity to every other movie the user has
not rated. -/
def contentContribs (nm : NumModel) (rs : List Rating) (ms : List Movie)
    (user : String) : List (String × List ℚ) :=
  let userRatings := rs.filter (fun r => decide (r.userId = user))
  let liked := (userRatings.filter (fun r => decide ((4 : ℚ) ≤ r.score))).map (·.movieId)
  let movieIds := ms.map (·.id)
  let vecs := nm.tfidf ms
  let ratedIds := userRatings.map (·.movieId)
  liked.foldl (fun acc lk =>
    if lk ∈ movieIds then
      (List.range movieIds.length).foldl (fun acc2 i =>
        if movieIds.getD i "" ≠ lk ∧ movieIds.getD i "" ∉ ratedIds then
          addContribution acc2 (movieIds.getD i "")
            (cosineSim nm (vecs.getD (movieIds.indexOf lk) []) (vecs.getD i []))
        else acc2) acc
    else acc) []

/-- `content_based_recommendations`: empty if the user has no ratings or no
rating `≥ 4`; otherwise mean similarity per candidate, sorted descending,
truncated to `limit`.  (This function never raises: the similarity matrix
is only consulted for liked movies present in the movie index, which
forces a nonempty movie snapshot.) -/
def content_based_recommendations (nm : NumModel) (rs : List Rating)
    (ms : List Movie) (user : String) (limit : ℕ) : List RecItem :=
  let userRatings := rs.filter (fun r => decide (r.userId = user))
  if userRatings.isEmpty then []
  else if ((userRatings.filter (fun r => decide ((4 : ℚ) ≤ r.score))).map (·.movieId)).isEmpty then []
  else (sortDesc ((contentContribs nm rs ms user).map (fun p => ⟨p.1, meanQ p.2⟩))).take limit

/-- The per-movie rating lists of `get_popular_movies_fallback`
(`movie_popularity`), keyed in first-occurrence order. -/
def ratedContribs (rs : List Rating) : List (String × List ℚ) :=
  rs.foldl (fun acc r => addContribution acc r.movieId r.score) []

/-- The rated part of the popularity ranking: score
`mean * log (count + 1)`, sorted descending. -/
def ratedPart (nm : NumModel) (rs : List Rating) : List RecItem :=
  sortDesc ((ratedContribs rs).map (fun p => ⟨p.1, meanQ p.2 * nm.log1p p.2.length⟩))

/-- The filler appended when fewer than `limit` movies have ratings:
every movie (in snapshot order) whose id carries no rating, at the default
score `2.5`. -/
def defaultPart (rs : List Rating) (ms : List Movie) : List RecItem :=
  (ms.filter (fun mv => decide (mv.id ∉ (ratedContribs rs).map (·.1)))).map
    (fun mv => ⟨mv.id, 5 / 2⟩)

/-- `get_popular_movies_fallback`: empty when the movie snapshot is empty;
otherwise the rated ranking, extended by the default-scored filler when it
is shorter than `limit`, truncated to `limit`. -/
def get_popular_movies_fallback (nm : NumModel) (rs : List Rating)
    (ms : List Movie) (limit : ℕ) : List RecItem :=
  if ms.isEmpty then []
  else
    (if (ratedPart nm rs).length < limit
      then ratedPart nm rs ++ defaultPart rs ms
      else ratedPart nm rs).take limit

/-- The combined score dictionary of the hybrid blend: the FIRST
`limit // 2` collaborative entries at weight `0.7`, then every content
entry at weight `0.3`, added on top where the key already exists. -/
def blendDict (cf ct : List RecItem) (limit : ℕ) : List (String × ℚ) :=
  ct.foldl (fun acc r => addWeighted acc r.movieId (r.score * (3 / 10)))
    ((cf.take (limit / 2)).foldl
      (fun acc r => setWeighted acc r.movieId (r.score * (7 / 10))) [])

/-- The blended branch of `hybrid_recommendations`: combined dictionary,
sorted by combined score descending, truncated to `limit`. -/
def blendRecs (cf ct : List RecItem) (limit : ℕ) : List RecItem :=
  (sortDesc ((blendDict cf ct limit).map (fun p => ⟨p.1, p.2⟩))).take limit

/-- `len([r for r in ratings_cache if r['userId'] == user_id])`. -/
def ratingCount (rs : List Rating) (user : String) : ℕ :=
  (rs.filter (fun r => decide (r.userId = user))).length

/-- `MIN_RATINGS_FOR_CF = 5`. -/
def MIN_RATINGS_FOR_CF : ℕ := 5

/-- `hybrid_recommendations`: blended CF+content path for users with at
least `MIN_RATINGS_FOR_CF` ratings (collaborative run with `limit`,
content with `limit // 2`), content-only for `0 < n < 5`, nothing for
`n = 0`; an empty personalized result falls back to the popularity
ranking.  `none` models an escaped exception of a sub-recommender. -/
def hybrid_recommendations (nm : NumModel) (rs : List Rating) (ms : List Movie)
    (user : String) (limit : ℕ) : Option (List RecItem) :=
  let personalized : Option (List RecItem) :=
    if MIN_RATINGS_FOR_CF ≤ ratingCount rs user then
      (collaborative_filtering_recommendations nm rs user limit).map
        (fun cf => blendRecs cf (content_based_recommendations nm rs ms user (limit / 2)) limit)
    else if 0 < ratingCount rs user then
      some (content_based_recommendations nm rs ms user limit)
    else some []
  personalized.map (fun l =>
    if l.isEmpty then get_popular_movies_fallback nm rs ms limit else l)

/-- A concrete instance of the numeric primitives, used to evaluate the
embedding on concrete snapshots: the exact square root on rationals whose
numerator and denominator are perfect squares (positive everywhere on
positive input, like the real square root), a positive increasing stand-in
for `count ↦ log (count + 1)` with `qlog1p 1 = 0.7 ≈ log 2`, and a
constant one-dimensional feature vector per movie. -/
def qsqrt (q : ℚ) : ℚ := (Nat.sqrt q.num.toNat : ℚ) / (Nat.sqrt q.den : ℚ)

/-- Stand-in for `count ↦ log (count + 1)`; see `qsqrt`. -/
def qlog1p (n : ℕ) : ℚ := (7 / 10) * n

/-- Degenerate stand-in for the TF-IDF vectorizer output. -/
def trivTfidf (ms : List Movie) : List (List ℚ) := ms.map (fun _ => [1])

/-- The concrete `NumModel` used for witnesses. -/
def qModel : NumModel := ⟨qsqrt, qlog1p, trivTfidf⟩

/-- First-match lookup in an insertion-ordered dictionary. -/
def lookupV {β : Type} : List (String × β) → String → Option β
  | [], _ => none
  | p :: t, k => if p.1 = k then some p.2 else lookupV t k

/-- First-match lookup of a movie's score in a recommendation list. -/
def lookupRec : List RecItem → String → Option ℚ
  | [], _ => none
  | r :: t, k => if r.movieId = k then some r.score else lookupRec t k

/-- Scores are non-increasing from first to last entry. -/
def scoresDesc (l : List RecItem) : Prop := l.Pairwise recGe

/-- The item ids of a result are pairwise distinct. -/
def distinctIds (l : List RecItem) : Prop := (l.map (·.movieId)).Nodup

/-- Claim-side definition, following the spec sentence for the blended
hybrid state word for word: EVERY item of the collaborative result
(computed with the full `limit`) contributes `score * 0.7`, every content
item (limit `limit // 2`) contributes `score * 0.3` additively, and the
output is the combined map sorted descending and truncated to `limit`. -/
def claimedBlendC1 (nm : NumModel) (rs : List Rating) (ms : List Movie)
    (user : String) (limit : ℕ) : List RecItem :=
  let combined := (content_based_recommendations nm rs ms user (limit / 2)).foldl
    (fun acc r => addWeighted acc r.movieId (r.score * (3 / 10)))
    ((collaborative_core nm rs user limit).map
      (fun r => (r.movieId, r.score * (7 / 10))))
  (sortDesc (combined.map (fun p => (⟨p.1, p.2⟩ : RecItem)))).take limit

/-- Concrete ratings snapshot: `u1` has exactly 5 ratings, `u2` shares two
of them (cosine similarity `2/5` with exactly rational norms) and has
rated two movies (`m6`, `m7`) that `u1` has not. -/
def rsC1 : List Rating :=
  [⟨"u1", "m1", 3⟩, ⟨"u1", "m2", 4⟩, ⟨"u1", "m3", 5⟩, ⟨"u1", "m4", 5⟩, ⟨"u1", "m5", 5⟩,
   ⟨"u2", "m1", 4⟩, ⟨"u2", "m2", 4⟩, ⟨"u2", "m6", 1⟩, ⟨"u2", "m7", 4⟩]

/-- Concrete ratings snapshot with two users whose score vectors are
identical, so that both tie at cosine similarity 1 with the target. -/
def rsTie : List Rating := [⟨"u1", "m1", 5⟩, ⟨"u2", "m1", 5⟩]

/-- Concrete ratings snapshot in which the target user's self-similarity
is strictly largest (rows `[3,4]` and `[4,3]`, similarity `24/25`). -/
def rsStrict : List Rating :=
  [⟨"u1", "m1", 3⟩, ⟨"u1", "m2", 4⟩, ⟨"u2", "m1", 4⟩, ⟨"u2", "m2", 3⟩]

/-- Concrete ratings snapshot with a single low rating for `m1`. -/
def rsPop : List Rating := [⟨"u1", "m1", 1⟩]

/-- Concrete movie snapshot with two movies. -/
def msPop : List Movie :=
  [⟨"m1", "t1", "d1", "c1", "r1"⟩, ⟨"m2", "t2", "d2", "c2", "r2"⟩]

/-! ### Dictionary lemmas -/

theorem keys_updEntry {β : Type} (k : String) (f : β → β) (d : β) :
    ∀ l : List (String × β), (updEntry l k f d).map (·.1)
      = if k ∈ l.map (·.1) then l.map (·.1) else l.map (·.1) ++ [k] := by
  intro l
  induction l with
  | nil => simp [updEntry]
  | cons p t ih =>
    obtain ⟨pk, pv⟩ := p
    by_cases h : pk = k
    · subst h
      simp [updEntry]
    · have hk : k ≠ pk := Ne.symm h
      simp only [updEntry, if_neg h, List.map_cons, List.mem_cons, ih]
      by_cases hmem : k ∈ t.map (·.1)
      · simp [hmem, hk]
      · simp [hmem, hk]

theorem nodupKeys_updEntry {β : Type} (k : String) (f : β → β) (d : β)
    (l : List (String × β)) (h : (l.map (·.1)).Nodup) :
    ((updEntry l k f d).map (·.1)).Nodup := by
  rw [keys_updEntry]
  by_cases hmem : k ∈ l.map (·.1)
  · simpa [hmem] using h
  · simp only [if_neg hmem]
    rw [List.nodup_append]
    refine ⟨h, List.nodup_singleton k, ?_⟩
    intro a ha hak
    rw [List.mem_singleton] at hak
    exact hmem (hak ▸ ha)

theorem updEntry_ne_nil {β : Type} (k : String) (f : β → β) (d : β) :
    ∀ l : List (String × β), updEntry l k f d ≠ [] := by
  intro l
  cases l with
  | nil => simp [updEntry]
  | cons p t =>
    obtain ⟨pk, pv⟩ := p
    simp only [updEntry]
    split <;> simp

theorem updEntry_append_of_not_mem {β : Type} (k : String) (f : β → β) (d : β) :
    ∀ l : List (String × β), k ∉ l.map (·.1) → updEntry l k f d = l ++ [(k, d)] := by
  intro l
  induction l with
  | nil => simp [updEntry]
  | cons p t ih =>
    intro h
    simp only [List.map_cons, List.mem_cons] at h
    push_neg at h
    obtain ⟨pk, pv⟩ := p
    simp only [updEntry, if_neg (Ne.symm h.1), List.cons_append]
    exact congrArg _ (ih h.2)

theorem lookupV_updEntry {β : Type} (k : String) (f : β → β) (d : β) (k' : String) :
    ∀ l : List (String × β), lookupV (updEntry l k f d) k'
      = if k = k' then some ((lookupV l k).elim d f) else lookupV l k' := by
  intro l
  induction l with
  | nil =>
    simp only [updEntry, lookupV]
    by_cases h : k = k' <;> simp [h]
  | cons p t ih =>
    obtain ⟨pk, pv⟩ := p
    by_cases h : pk = k
    · subst h
      by_cases h' : pk = k'
      · subst h'
        simp [updEntry, lookupV]
      · simp [updEntry, lookupV, h']
    · by_cases h' : pk = k'
      · subst h'
        simp [updEntry, lookupV, h, Ne.symm h]
      · simp [updEntry, lookupV, h, h', ih]

/-- Generic preservation of a property along a left fold. -/
theorem foldl_invariant {σ α : Type} (step : σ → α → σ) (P : σ → Prop)
    (hstep : ∀ s a, P s → P (step s a)) :
    ∀ (xs : List α) (s : σ), P s → P (xs.foldl step s) := by
  intro xs
  induction xs with
  | nil => intro s hs; exact hs
  | cons x t ih => intro s hs; exact ih (step s x) (hstep s x hs)

/-! ### Sorting lemmas -/

theorem sortDesc_perm (l : List RecItem) : List.Perm (sortDesc l) l :=
  List.perm_insertionSort recGe l

theorem sortDesc_sorted (l : List RecItem) : (sortDesc l).Pairwise recGe :=
  List.sorted_insertionSort recGe l

theorem length_sortDesc (l : List RecItem) : (sortDesc l).length = l.length :=
  (sortDesc_perm l).length_eq

theorem scoresDesc_take (l : List RecItem) (n : ℕ) (h : scoresDesc l) :
    scoresDesc (l.take n) :=
  List.Pairwise.sublist (List.take_sublist n l) h

theorem nodupIds_sortDesc_take (l : List RecItem) (n : ℕ)
    (h : (l.map (·.movieId)).Nodup) :
    (((sortDesc l).take n).map (·.movieId)).Nodup := by
  have h1 : ((sortDesc l).map (·.movieId)).Nodup :=
    (((sortDesc_perm l).map (·.movieId)).symm).nodup h
  exact ((List.take_sublist n (sortDesc l)).map (·.movieId)).nodup h1

/-! ### Fold characterization lemmas for the hybrid blend dictionary -/

theorem lookupV_addWeighted (k0 : String) (s : ℚ) (k : String) :
    ∀ d0 : List (String × ℚ), lookupV (addWeighted d0 k0 s) k
      = if k0 = k then some ((lookupV d0 k0).getD 0 + s) else lookupV d0 k := by
  intro d0
  rw [addWeighted, lookupV_updEntry]
  by_cases h : k0 = k
  · subst h
    cases hv : lookupV d0 k0 <;> simp [hv, Option.elim]
  · simp [h]

theorem keys_addWeighted (k0 : String) (s : ℚ) (d0 : List (String × ℚ)) :
    (addWeighted d0 k0 s).map (·.1)
      = if k0 ∈ d0.map (·.1) then d0.map (·.1) else d0.map (·.1) ++ [k0] :=
  keys_updEntry k0 _ s d0

theorem keys_foldl_addWeighted (w : ℚ) :
    ∀ (ct : List RecItem) (d0 : List (String × ℚ)),
      (ct.map (·.movieId)).Nodup →
      ((ct.foldl (fun acc r => addWeighted acc r.movieId (r.score * w)) d0).map (·.1))
        = d0.map (·.1)
          ++ (ct.filter (fun c => decide (c.movieId ∉ d0.map (·.1)))).map (·.movieId) := by
  intro ct
  induction ct with
  | nil => intro d0 _; simp
  | cons c t ih =>
    intro d0 hnd
    simp only [List.map_cons, List.nodup_cons] at hnd
    simp only [List.foldl_cons]
    rw [ih _ hnd.2]
    by_cases hmem : c.movieId ∈ d0.map (·.1)
    · rw [keys_addWeighted, if_pos hmem]
      have hfil : t.filter (fun x => decide (x.movieId ∉ d0.map (·.1)))
          = (c :: t).filter (fun x => decide (x.movieId ∉ d0.map (·.1))) := by
        simp [List.filter_cons, hmem]
      rw [hfil]
    · rw [keys_addWeighted, if_neg hmem]
      have hfil : (c :: t).filter (fun x => decide (x.movieId ∉ d0.map (·.1)))
          = c :: t.filter (fun x => decide (x.movieId ∉ d0.map (·.1))) := by
        simp [List.filter_cons, hmem]
      rw [hfil]
      have hcong : t.filter (fun x => decide (x.movieId ∉ d0.map (·.1) ++ [c.movieId]))
          = t.filter (fun x => decide (x.movieId ∉ d0.map (·.1))) := by
        apply List.filter_congr
        intro x hx
        have hne : x.movieId ≠ c.movieId := by
          intro he
          exact hnd.1 (he ▸ List.mem_map_of_mem (·.movieId) hx)
        simp [List.mem_append, hne]
      rw [hcong]
      simp

theorem lookupRec_eq_none_of_not_mem (k : String) :
    ∀ t : List RecItem, k ∉ t.map (·.movieId) → lookupRec t k = none := by
  intro t
  induction t with
  | nil => intro _; rfl
  | cons x xs ih =>
    intro h
    simp only [List.map_cons, List.mem_cons] at h
    push_neg at h
    simp only [lookupRec, if_neg (Ne.symm h.1)]
    exact ih h.2

theorem lookupV_foldl_addWeighted (w : ℚ) :
    ∀ (ct : List RecItem) (d0 : List (String × ℚ)) (k : String),
      (ct.map (·.movieId)).Nodup →
      lookupV (ct.foldl (fun acc r => addWeighted acc r.movieId (r.score * w)) d0) k
        = match lookupRec ct k with
          | some cv => some ((lookupV d0 k).getD 0 + cv * w)
          | none => lookupV d0 k := by
  intro ct
  induction ct with
  | nil => intro d0 k _; simp [lookupRec]
  | cons c t ih =>
    intro d0 k hnd
    simp only [List.map_cons, List.nodup_cons] at hnd
    simp only [List.foldl_cons]
    rw [ih _ _ hnd.2]
    by_cases h : c.movieId = k
    · subst h
      have hnone : lookupRec t c.movieId = none :=
        lookupRec_eq_none_of_not_mem c.movieId t hnd.1
      rw [hnone]
      simp only [lookupRec, if_pos rfl]
      rw [lookupV_addWeighted]
      simp
    · have hstep : lookupV (addWeighted d0 c.movieId (c.score * w)) k = lookupV d0 k := by
        rw [lookupV_addWeighted, if_neg h]
      simp only [lookupRec, if_neg h]
      cases hv : lookupRec t k <;> simp [hv, hstep]

theorem foldl_setWeighted_eq_map (w : ℚ) :
    ∀ (cfT : List RecItem) (acc : List (String × ℚ)),
      (cfT.map (·.movieId)).Nodup →
      (∀ r ∈ cfT, r.movieId ∉ acc.map (·.1)) →
      cfT.foldl (fun a r => setWeighted a r.movieId (r.score * w)) acc
        = acc ++ cfT.map (fun r => (r.movieId, r.score * w)) := by
  intro cfT
  induction cfT with
  | nil => intro acc _ _; simp
  | cons r t ih =>
    intro acc hnd hdis
    simp only [List.map_cons, List.nodup_cons] at hnd
    simp only [List.foldl_cons]
    have hstep : setWeighted acc r.movieId (r.score * w)
        = acc ++ [(r.movieId, r.score * w)] :=
      updEntry_append_of_not_mem _ _ _ acc (hdis r (List.mem_cons_self r t))
    rw [hstep, ih _ hnd.2]
    · simp
    · intro x hx
      simp only [List.map_append, List.mem_append]
      push_neg
      constructor
      · exact hdis x (List.mem_cons_of_mem r hx)
      · intro hm
        simp only [List.map_cons, List.map_nil, List.mem_singleton] at hm
        exact hnd.1 (hm ▸ List.mem_map_of_mem (·.movieId) hx)

theorem lookupV_map_pair (w : ℚ) (k : String) :
    ∀ cfT : List RecItem,
      lookupV (cfT.map (fun r => (r.movieId, r.score * w))) k
        = (lookupRec cfT k).map (fun s => s * w) := by
  intro cfT
  induction cfT with
  | nil => simp [lookupV, lookupRec]
  | cons r t ih =>
    by_cases h : r.movieId = k <;> simp [lookupV, lookupRec, h, ih]

theorem lookupV_of_mem (p : String × ℚ) :
    ∀ l : List (String × ℚ), p ∈ l → ((l.map (·.1)).Nodup) →
      lookupV l p.1 = some p.2 := by
  intro l
  induction l with
  | nil => intro h _; exact absurd h (List.not_mem_nil p)
  | cons q t ih =>
    intro hmem hnd
    simp only [List.map_cons, List.nodup_cons] at hnd
    rcases List.mem_cons.mp hmem with h | h
    · subst h
      simp [lookupV]
    · have hne : q.1 ≠ p.1 := by
        intro he
        exact hnd.1 (he ▸ List.mem_map_of_mem (·.1) h)
      simp only [lookupV, if_neg hne]
      exact ih h hnd.2

/-! ### Key-distinctness of the contribution dictionaries -/

theorem nodupKeys_foldl_addContribution {α : Type} (key : α → String) (val : α → ℚ)
    (cond : List (String × List ℚ) → α → Prop) [inst : ∀ acc x, Decidable (cond acc x)]
    (xs : List α) (acc : List (String × List ℚ)) (h : (acc.map (·.1)).Nodup) :
    (((xs.foldl (fun a x => if cond a x then addContribution a (key x) (val x) else a) acc)).map
      (·.1)).Nodup := by
  refine foldl_invariant _ (fun a : List (String × List ℚ) => (a.map (·.1)).Nodup) ?_ xs acc h
  intro s a hs
  by_cases hc : cond s a
  · simpa [hc, addContribution] using nodupKeys_updEntry (key a) _ [val a] s hs
  · simpa [hc] using hs

theorem nodupKeys_cfContribs (nm : NumModel) (rs : List Rating) (user : String) :
    ((cfContribs nm rs user).map (·.1)).Nodup := by
  rw [cfContribs]
  refine foldl_invariant _ (fun a : List (String × List ℚ) => (a.map (·.1)).Nodup) ?_ _ []
    (by simp)
  intro s idx hs
  refine foldl_invariant _ (fun a : List (String × List ℚ) => (a.map (·.1)).Nodup) ?_ _ s hs
  intro s2 mid hs2
  split
  · exact nodupKeys_updEntry mid _ _ s2 hs2
  · exact hs2

theorem nodupKeys_contentContribs (nm : NumModel) (rs : List Rating) (ms : List Movie)
    (user : String) : ((contentContribs nm rs ms user).map (·.1)).Nodup := by
  rw [contentContribs]
  refine foldl_invariant _ (fun a : List (String × List ℚ) => (a.map (·.1)).Nodup) ?_ _ []
    (by simp)
  intro s lk hs
  split
  · refine foldl_invariant _ (fun a : List (String × List ℚ) => (a.map (·.1)).Nodup) ?_ _ s hs
    intro s2 i hs2
    split
    · exact nodupKeys_updEntry _ _ _ s2 hs2
    · exact hs2
  · exact hs

theorem nodupKeys_ratedContribs (rs : List Rating) :
    ((ratedContribs rs).map (·.1)).Nodup := by
  rw [ratedContribs]
  refine foldl_invariant _ (fun a : List (String × List ℚ) => (a.map (·.1)).Nodup) ?_ _ []
    (by simp)
  intro s r hs
  exact nodupKeys_updEntry _ _ _ s hs

theorem ratedContribs_ne_nil (rs : List Rating) (h : rs ≠ []) :
    ratedContribs rs ≠ [] := by
  cases rs with
  | nil => exact absurd rfl h
  | cons r t =>
    rw [ratedContribs]
    simp only [List.foldl_cons]
    refine foldl_invariant _ (fun a : List (String × List ℚ) => a ≠ []) ?_ t _ ?_
    · intro s x _
      exact updEntry_ne_nil _ _ _ s
    · exact updEntry_ne_nil _ _ _ []

theorem nodupIds_mapped_contribs (l : List (String × List ℚ)) (f : String × List ℚ → ℚ)
    (h : (l.map (·.1)).Nodup) :
    ((l.map (fun p => (⟨p.1, f p⟩ : RecItem))).map (·.movieId)).Nodup := by
  simpa [List.map_map, Function.comp] using h

/-! ### Per-recommender structure lemmas -/

theorem nodupIds_collaborative_core (nm : NumModel) (rs : List Rating) (user : String)
    (limit : ℕ) : distinctIds (collaborative_core nm rs user limit) := by
  rw [collaborative_core, distinctIds]
  split
  · exact nodupIds_sortDesc_take _ _
      (nodupIds_mapped_contribs _ _ (nodupKeys_cfContribs nm rs user))
  · exact List.nodup_nil

theorem length_collaborative_core (nm : NumModel) (rs : List Rating) (user : String)
    (limit : ℕ) : (collaborative_core nm rs user limit).length ≤ limit := by
  rw [collaborative_core]
  split
  · exact List.length_take_le _ _
  · exact Nat.zero_le _

theorem nodupIds_content (nm : NumModel) (rs : List Rating) (ms : List Movie)
    (user : String) (limit : ℕ) :
    distinctIds (content_based_recommendations nm rs ms user limit) := by
  rw [content_based_recommendations, distinctIds]
  split
  · exact List.nodup_nil
  · split
    · exact List.nodup_nil
    · exact nodupIds_sortDesc_take _ _
        (nodupIds_mapped_contribs _ _ (nodupKeys_contentContribs nm rs ms user))

theorem length_content (nm : NumModel) (rs : List Rating) (ms : List Movie)
    (user : String) (limit : ℕ) :
    (content_based_recommendations nm rs ms user limit).length ≤ limit := by
  rw [content_based_recommendations]
  split
  · exact Nat.zero_le _
  · split
    · exact Nat.zero_le _
    · exact List.length_take_le _ _

theorem scoresDesc_collaborative_core (nm : NumModel) (rs : List Rating) (user : String)
    (limit : ℕ) : scoresDesc (collaborative_core nm rs user limit) := by
  rw [collaborative_core]
  split
  · exact scoresDesc_take _ _ (sortDesc_sorted _)
  · exact List.Pairwise.nil

theorem scoresDesc_content (nm : NumModel) (rs : List Rating) (ms : List Movie)
    (user : String) (limit : ℕ) :
    scoresDesc (content_based_recommendations nm rs ms user limit) := by
  rw [content_based_recommendations]
  split
  · exact List.Pairwise.nil
  · split
    · exact List.Pairwise.nil
    · exact scoresDesc_take _ _ (sortDesc_sorted _)

theorem content_limit_zero (nm : NumModel) (rs : List Rating) (ms : List Movie)
    (user : String) : content_based_recommendations nm rs ms user 0 = [] := by
  rw [content_based_recommendations]
  split
  · rfl
  · split
    · rfl
    · simp

theorem nodupKeys_blendDict (cf ct : List RecItem) (limit : ℕ) :
    ((blendDict cf ct limit).map (·.1)).Nodup := by
  rw [blendDict]
  refine foldl_invariant _ (fun a : List (String × ℚ) => (a.map (·.1)).Nodup) ?_ _ _ ?_
  · intro s r hs
    exact nodupKeys_updEntry _ _ _ s hs
  · refine foldl_invariant _ (fun a : List (String × ℚ) => (a.map (·.1)).Nodup) ?_ _ []
      (by simp)
    intro s r hs
    exact nodupKeys_updEntry _ _ _ s hs

theorem nodupIds_blendRecs (cf ct : List RecItem) (limit : ℕ) :
    distinctIds (blendRecs cf ct limit) := by
  rw [blendRecs, distinctIds]
  refine nodupIds_sortDesc_take _ _ ?_
  simpa [List.map_map, Function.comp] using nodupKeys_blendDict cf ct limit

theorem length_blendRecs (cf ct : List RecItem) (limit : ℕ) :
    (blendRecs cf ct limit).length ≤ limit :=
  List.length_take_le _ _

theorem scoresDesc_blendRecs (cf ct : List RecItem) (limit : ℕ) :
    scoresDesc (blendRecs cf ct limit) :=
  scoresDesc_take _ _ (sortDesc_sorted _)

/-! ### Popularity fallback structure lemmas -/

theorem mem_defaultPart (rs : List Rating) (ms : List Movie) (r : RecItem)
    (h : r ∈ defaultPart rs ms) : r.score = 5 / 2 := by
  rw [defaultPart] at h
  obtain ⟨mv, _, hmv⟩ := List.mem_map.mp h
  rw [← hmv]

theorem nodupIds_defaultPart (rs : List Rating) (ms : List Movie)
    (hms : (ms.map (·.id)).Nodup) : ((defaultPart rs ms).map (·.movieId)).Nodup := by
  rw [defaultPart]
  have hsub : ((ms.filter (fun mv => decide (mv.id ∉ (ratedContribs rs).map (·.1)))).map
      (·.id)).Nodup :=
    ((List.filter_sublist ms).map (·.id)).nodup hms
  simpa [List.map_map, Function.comp] using hsub

theorem nodupIds_ratedPart (nm : NumModel) (rs : List Rating) :
    ((ratedPart nm rs).map (·.movieId)).Nodup := by
  rw [ratedPart]
  have h1 : (((ratedContribs rs).map
      (fun p => (⟨p.1, meanQ p.2 * nm.log1p p.2.length⟩ : RecItem))).map (·.movieId)).Nodup :=
    nodupIds_mapped_contribs _ _ (nodupKeys_ratedContribs rs)
  exact ((sortDesc_perm _).map (·.movieId)).symm.nodup h1

theorem mem_ids_ratedPart (nm : NumModel) (rs : List Rating) (x : String)
    (h : x ∈ (ratedPart nm rs).map (·.movieId)) :
    x ∈ (ratedContribs rs).map (·.1) := by
  rw [ratedPart] at h
  have := ((sortDesc_perm _).map (·.movieId)).mem_iff.mp h
  simpa [List.map_map, Function.comp] using this

theorem nodupIds_popular (nm : NumModel) (rs : List Rating) (ms : List Movie)
    (limit : ℕ) (hms : (ms.map (·.id)).Nodup) :
    distinctIds (get_popular_movies_fallback nm rs ms limit) := by
  rw [get_popular_movies_fallback, distinctIds]
  split
  · exact List.nodup_nil
  · have hbase : (((if (ratedPart nm rs).length < limit
        then ratedPart nm rs ++ defaultPart rs ms
        else ratedPart nm rs)).map (·.movieId)).Nodup := by
      split
      · rw [List.map_append, List.nodup_append]
        refine ⟨nodupIds_ratedPart nm rs, nodupIds_defaultPart rs ms hms, ?_⟩
        intro x hx hxd
        have hxk := mem_ids_ratedPart nm rs x hx
        rw [defaultPart, List.map_map, List.mem_map] at hxd
        obtain ⟨mv, hmv, hid⟩ := hxd
        have hp := (List.mem_filter.mp hmv).2
        rw [decide_eq_true_eq] at hp
        apply hp
        have hidx : mv.id = x := hid
        rw [hidx]
        exact hxk
      · exact nodupIds_ratedPart nm rs
    exact List.Sublist.nodup
      (List.Sublist.map (fun r : RecItem => r.movieId) (List.take_sublist limit _)) hbase

theorem length_popular (nm : NumModel) (rs : List Rating) (ms : List Movie)
    (limit : ℕ) : (get_popular_movies_fallback nm rs ms limit).length ≤ limit := by
  rw [get_popular_movies_fallback]
  split
  · exact Nat.zero_le _
  · exact List.length_take_le _ _

/-! ### Hybrid branch lemmas -/

theorem count_le_length (rs : List Rating) (user : String) :
    ratingCount rs user ≤ rs.length :=
  List.length_filter_le _ rs

theorem rs_not_empty_of_count (rs : List Rating) (user : String)
    (h : MIN_RATINGS_FOR_CF ≤ ratingCount rs user) : rs.isEmpty = false := by
  cases rs with
  | nil => simp [ratingCount, MIN_RATINGS_FOR_CF] at h
  | cons r t => rfl

theorem hybrid_blend_eq (nm : NumModel) (rs : List Rating) (ms : List Movie)
    (user : String) (limit : ℕ) (h : MIN_RATINGS_FOR_CF ≤ ratingCount rs user) :
    hybrid_recommendations nm rs ms user limit = some (
      if (blendRecs (collaborative_core nm rs user limit)
            (content_based_recommendations nm rs ms user (limit / 2)) limit).isEmpty
      then get_popular_movies_fallback nm rs ms limit
      else blendRecs (collaborative_core nm rs user limit)
            (content_based_recommendations nm rs ms user (limit / 2)) limit) := by
  rw [hybrid_recommendations]
  have hne := rs_not_empty_of_count rs user h
  simp only [if_pos h, collaborative_filtering_recommendations, hne,
    Bool.false_eq_true, if_false, Option.map_some']

theorem hybrid_content_eq (nm : NumModel) (rs : List Rating) (ms : List Movie)
    (user : String) (limit : ℕ) (h0 : 0 < ratingCount rs user)
    (h5 : ratingCount rs user < MIN_RATINGS_FOR_CF) :
    hybrid_recommendations nm rs ms user limit = some (
      if (content_based_recommendations nm rs ms user limit).isEmpty
      then get_popular_movies_fallback nm rs ms limit
      else content_based_recommendations nm rs ms user limit) := by
  rw [hybrid_recommendations]
  simp only [if_neg (Nat.not_le.mpr h5), if_pos h0, Option.map_some']

theorem hybrid_zero_eq (nm : NumModel) (rs : List Rating) (ms : List Movie)
    (user : String) (limit : ℕ) (h : ratingCount rs user = 0) :
    hybrid_recommendations nm rs ms user limit
      = some (get_popular_movies_fallback nm rs ms limit) := by
  rw [hybrid_recommendations]
  have h5 : ¬ MIN_RATINGS_FOR_CF ≤ ratingCount rs user := by
    rw [h]; decide
  have h0 : ¬ 0 < ratingCount rs user := by
    rw [h]; decide
  simp only [if_neg h5, if_neg h0, Option.map_some', List.isEmpty_nil, if_true]

/-! ### Numeric lemmas -/

theorem dotQ_self_nonneg (v : List ℚ) : 0 ≤ dotQ v v := by
  induction v with
  | nil => simp [dotQ]
  | cons a t ih =>
    simp only [dotQ, List.zipWith_cons_cons, List.sum_cons]
    exact add_nonneg (mul_self_nonneg a) ih

theorem eq_zero_of_dotQ_self_eq_zero (v : List ℚ) (h : dotQ v v = 0) :
    ∀ a ∈ v, a = 0 := by
  induction v with
  | nil => simp
  | cons a t ih =>
    simp only [dotQ, List.zipWith_cons_cons, List.sum_cons] at h
    have h1 : 0 ≤ a * a := mul_self_nonneg a
    have h2 : 0 ≤ dotQ t t := dotQ_self_nonneg t
    have ha : a * a = 0 := by
      have : dotQ t t = (List.zipWith (fun a b => a * b) t t).sum := rfl
      rw [← this] at h
      linarith
    have ht : dotQ t t = 0 := by
      have : dotQ t t = (List.zipWith (fun a b => a * b) t t).sum := rfl
      rw [← this] at h
      linarith
    intro x hx
    rcases List.mem_cons.mp hx with hxa | hxt
    · rw [hxa]
      exact mul_self_eq_zero.mp ha
    · exact ih ht x hxt

theorem dotQ_zero_left (u : List ℚ) (h : ∀ a ∈ u, a = 0) :
    ∀ v : List ℚ, dotQ u v = 0 := by
  induction u with
  | nil => intro v; simp [dotQ]
  | cons a t ih =>
    intro v
    cases v with
    | nil => simp [dotQ]
    | cons b tv =>
      simp only [dotQ, List.zipWith_cons_cons, List.sum_cons]
      have ha : a = 0 := h a (List.mem_cons_self a t)
      have ht := ih (fun x hx => h x (List.mem_cons_of_mem a hx)) tv
      rw [dotQ] at ht
      rw [ha, ht, zero_mul, zero_add]

theorem dotQ_zero_right (v : List ℚ) (h : ∀ a ∈ v, a = 0) :
    ∀ u : List ℚ, dotQ u v = 0 := by
  induction v with
  | nil => intro u; simp [dotQ]
  | cons b tv ih =>
    intro u
    cases u with
    | nil => simp [dotQ]
    | cons a tu =>
      simp only [dotQ, List.zipWith_cons_cons, List.sum_cons]
      have hb : b = 0 := h b (List.mem_cons_self b tv)
      have ht := ih (fun x hx => h x (List.mem_cons_of_mem b hx)) tu
      rw [dotQ] at ht
      rw [hb, ht, mul_zero, zero_add]

theorem normFactor_pos (nm : NumModel) (hs : ∀ q : ℚ, 0 < q → 0 < nm.sqrtQ q)
    (v : List ℚ) : 0 < normFactor nm v := by
  rw [normFactor]
  split
  · exact one_pos
  · rename_i hne
    exact hs _ (lt_of_le_of_ne (dotQ_self_nonneg v) (Ne.symm hne))

theorem qsqrt_pos (q : ℚ) (h : 0 < q) : 0 < qsqrt q := by
  rw [qsqrt]
  have hnum : 0 < q.num := Rat.num_pos.mpr h
  have h1 : 0 < Nat.sqrt q.num.toNat := Nat.sqrt_pos.mpr (by omega)
  have h2 : 0 < Nat.sqrt q.den := Nat.sqrt_pos.mpr q.den_pos
  apply div_pos
  · exact_mod_cast h1
  · exact_mod_cast h2

/-! ### Popularity nonemptiness -/

theorem ratedContribs_eq_nil_of_ratedPart (nm : NumModel) (rs : List Rating)
    (h : ratedPart nm rs = []) : ratedContribs rs = [] := by
  rw [ratedPart] at h
  have hlen := length_sortDesc ((ratedContribs rs).map
    (fun p => (⟨p.1, meanQ p.2 * nm.log1p p.2.length⟩ : RecItem)))
  rw [h] at hlen
  have := List.eq_nil_of_length_eq_zero hlen.symm
  exact List.map_eq_nil_iff.mp this

theorem popular_ne_nil (nm : NumModel) (rs : List Rating) (ms : List Movie) (limit : ℕ)
    (hms : ms ≠ []) (hlim : 1 ≤ limit) :
    get_popular_movies_fallback nm rs ms limit ≠ [] := by
  have hie : ms.isEmpty = false := by
    cases ms with
    | nil => exact absurd rfl hms
    | cons m t => rfl
  rw [get_popular_movies_fallback]
  simp only [hie, Bool.false_eq_true, if_false]
  intro hcon
  rw [List.take_eq_nil_iff] at hcon
  rcases hcon with h0 | hnil
  · omega
  · revert hnil
    split
    · intro hnil
      rw [List.append_eq_nil] at hnil
      have hrc : ratedContribs rs = [] :=
        ratedContribs_eq_nil_of_ratedPart nm rs hnil.1
      have hdef := hnil.2
      rw [defaultPart, hrc] at hdef
      simp only [List.map_nil, List.not_mem_nil, not_false_eq_true, decide_eq_true_eq,
        List.map_eq_nil_iff, List.filter_eq_nil_iff] at hdef
      cases ms with
      | nil => exact hms rfl
      | cons m t => exact hdef m (List.mem_cons_self m t) trivial
    · rename_i hge
      intro hnil
      rw [hnil] at hge
      simp only [List.length_nil, Nat.not_lt] at hge
      omega

end MovieRec

namespace MovieRec

theorem hybrid_out_cases (nm : NumModel) (rs : List Rating) (ms : List Movie)
    (user : String) (limit : ℕ) (out : List RecItem)
    (h : hybrid_recommendations nm rs ms user limit = some out) :
    out = get_popular_movies_fallback nm rs ms limit ∨
    out = blendRecs (collaborative_core nm rs user limit)
      (content_based_recommendations nm rs ms user (limit / 2)) limit ∨
    out = content_based_recommendations nm rs ms user limit := by
  by_cases h5 : MIN_RATINGS_FOR_CF ≤ ratingCount rs user
  · rw [hybrid_blend_eq nm rs ms user limit h5] at h
    have hout := (Option.some_inj.mp h).symm
    by_cases he : (blendRecs (collaborative_core nm rs user limit)
        (content_based_recommendations nm rs ms user (limit / 2)) limit).isEmpty
    · left
      rw [hout, if_pos he]
    · right; left
      rw [hout, if_neg he]
  · by_cases h0 : 0 < ratingCount rs user
    · rw [hybrid_content_eq nm rs ms user limit h0 (Nat.not_le.mp h5)] at h
      have hout := (Option.some_inj.mp h).symm
      by_cases he : (content_based_recommendations nm rs ms user limit).isEmpty
      · left
        rw [hout, if_pos he]
      · right; right
        rw [hout, if_neg he]
    · left
      have hz : ratingCount rs user = 0 := Nat.eq_zero_of_not_pos h0
      rw [hybrid_zero_eq nm rs ms user limit hz] at h
      exact (Option.some_inj.mp h).symm

/-! ### Characterization of the blend dictionary -/

theorem blendDict_keys (cf ct : List RecItem) (limit : ℕ)
    (hcf : ((cf.take (limit / 2)).map (·.movieId)).Nodup)
    (hct : (ct.map (·.movieId)).Nodup) :
    (blendDict cf ct limit).map (·.1)
      = (cf.take (limit / 2)).map (·.movieId)
        ++ (ct.filter
            (fun c => decide (c.movieId ∉ (cf.take (limit / 2)).map (·.movieId)))).map
          (·.movieId) := by
  rw [blendDict]
  have hd0 : (cf.take (limit / 2)).foldl
      (fun acc r => setWeighted acc r.movieId (r.score * (7 / 10))) []
      = (cf.take (limit / 2)).map (fun r => (r.movieId, r.score * (7 / 10))) := by
    have := foldl_setWeighted_eq_map (7 / 10) (cf.take (limit / 2)) [] hcf (by simp)
    simpa using this
  rw [hd0, keys_foldl_addWeighted (3 / 10) ct _ hct]
  have hkeys_d0 : ((cf.take (limit / 2)).map
      (fun r => (r.movieId, r.score * (7 / 10)))).map (·.1)
      = (cf.take (limit / 2)).map (·.movieId) := by
    simp only [List.map_map]
    rfl
  rw [hkeys_d0]

theorem blendDict_values (cf ct : List RecItem) (limit : ℕ)
    (hcf : ((cf.take (limit / 2)).map (·.movieId)).Nodup)
    (hct : (ct.map (·.movieId)).Nodup) :
    ∀ p ∈ blendDict cf ct limit,
      p.2 = ((lookupRec (cf.take (limit / 2)) p.1).getD 0) * (7 / 10)
          + ((lookupRec ct p.1).getD 0) * (3 / 10) := by
  intro p hp
  have hlook := lookupV_of_mem p (blendDict cf ct limit) hp (nodupKeys_blendDict cf ct limit)
  rw [blendDict] at hlook
  have hd0 : (cf.take (limit / 2)).foldl
      (fun acc r => setWeighted acc r.movieId (r.score * (7 / 10))) []
      = (cf.take (limit / 2)).map (fun r => (r.movieId, r.score * (7 / 10))) := by
    have := foldl_setWeighted_eq_map (7 / 10) (cf.take (limit / 2)) [] hcf (by simp)
    simpa using this
  rw [hd0, lookupV_foldl_addWeighted (3 / 10) ct _ p.1 hct,
    lookupV_map_pair (7 / 10) p.1 (cf.take (limit / 2))] at hlook
  cases hctl : lookupRec ct p.1 with
  | none =>
    rw [hctl] at hlook
    cases hcfl : lookupRec (cf.take (limit / 2)) p.1 with
    | none =>
      rw [hcfl] at hlook
      exact absurd hlook (by simp)
    | some fv =>
      rw [hcfl] at hlook
      simp only [Option.map_some'] at hlook
      have hval := Option.some_inj.mp hlook
      simp only [Option.getD_some, Option.getD_none]
      rw [← hval]
      ring
  | some cv =>
    rw [hctl] at hlook
    simp only at hlook
    cases hcfl : lookupRec (cf.take (limit / 2)) p.1 with
    | none =>
      rw [hcfl] at hlook
      simp only [Option.map_none', Option.getD_none] at hlook
      have hval := Option.some_inj.mp hlook
      simp only [Option.getD_some, Option.getD_none]
      rw [← hval]
      ring
    | some fv =>
      rw [hcfl] at hlook
      simp only [Option.map_some', Option.getD_some] at hlook
      have hval := Option.some_inj.mp hlook
      simp only [Option.getD_some]
      rw [← hval]

/-! ## Claim theorems -/

/-- **C5**: the hybrid recommender's branch selection is determined exactly
by the target user's rating count `n`: for `n ≥ MIN_RATINGS_FOR_CF` it runs
the CF+Content blended path, for `0 < n < MIN_RATINGS_FOR_CF` it returns
the content-based result, for `n = 0` no personalized branch executes, and
an empty personalized result is replaced by the popularity fallback. -/
theorem C5_hybrid_branch_selection (nm : NumModel) (rs : List Rating) (ms : List Movie)
    (user : String) (limit : ℕ) :
    (MIN_RATINGS_FOR_CF ≤ ratingCount rs user →
      hybrid_recommendations nm rs ms user limit = some (
        if (blendRecs (collaborative_core nm rs user limit)
              (content_based_recommendations nm rs ms user (limit / 2)) limit).isEmpty
        then get_popular_movies_fallback nm rs ms limit
        else blendRecs (collaborative_core nm rs user limit)
              (content_based_recommendations nm rs ms user (limit / 2)) limit)) ∧
    (0 < ratingCount rs user → ratingCount rs user < MIN_RATINGS_FOR_CF →
      hybrid_recommendations nm rs ms user limit = some (
        if (content_based_recommendations nm rs ms user limit).isEmpty
        then get_popular_movies_fallback nm rs ms limit
        else content_based_recommendations nm rs ms user limit)) ∧
    (ratingCount rs user = 0 →
      hybrid_recommendations nm rs ms user limit
        = some (get_popular_movies_fallback nm rs ms limit)) :=
  ⟨hybrid_blend_eq nm rs ms user limit,
   fun h0 h5 => hybrid_content_eq nm rs ms user limit h0 h5,
   hybrid_zero_eq nm rs ms user limit⟩

/-- Witness for C5: on the concrete snapshot `rsC1`, user `u1` has 5
ratings, so the blended branch equation holds concretely. -/
theorem C5_hybrid_branch_selection_witness :
    MIN_RATINGS_FOR_CF ≤ ratingCount rsC1 "u1" ∧
    hybrid_recommendations qModel rsC1 [] "u1" 2 = some (
      if (blendRecs (collaborative_core qModel rsC1 "u1" 2)
            (content_based_recommendations qModel rsC1 [] "u1" (2 / 2)) 2).isEmpty
      then get_popular_movies_fallback qModel rsC1 [] 2
      else blendRecs (collaborative_core qModel rsC1 "u1" 2)
            (content_based_recommendations qModel rsC1 [] "u1" (2 / 2)) 2) :=
  ⟨by decide, (C5_hybrid_branch_selection qModel rsC1 [] "u1" 2).1 (by decide)⟩

/-- **C6**: the popularity fallback returns an empty result iff the item
snapshot is empty (for any `limit ≥ 1`); with at least one item present it
is non-empty even with zero ratings.  The function is total (it never
raises): `np.mean` is only applied to the per-movie rating lists, which
are non-empty by construction. -/
theorem C6_popularity_empty_iff (nm : NumModel) (rs : List Rating) (ms : List Movie)
    (limit : ℕ) (hlim : 1 ≤ limit) :
    get_popular_movies_fallback nm rs ms limit = [] ↔ ms = [] := by
  constructor
  · intro h
    by_contra hms
    exact popular_ne_nil nm rs ms limit hms hlim h
  · intro h
    subst h
    rfl

/-- Witness for C6: with no ratings at all and two movies, the fallback at
`limit = 1` is nonetheless non-empty. -/
theorem C6_popularity_empty_iff_witness :
    (1 : ℕ) ≤ 1 ∧ (get_popular_movies_fallback qModel [] msPop 1 = [] ↔ msPop = []) :=
  ⟨by decide, C6_popularity_empty_iff qModel [] msPop 1 (by decide)⟩

/-- **C7** (code bug): with an EMPTY ratings snapshot,
`build_user_item_matrix` returns `None` without assigning
`self.user_item_matrix`, so `collaborative_filtering_recommendations`
dereferences `None.index` and raises `AttributeError` (modelled by `none`)
— contradicting the spec's "never raises for data-sparsity conditions".
The other sparsity conditions do return an empty-but-valid result:
content-based with no ratings, collaborative with an unknown user, and
popularity with no movies. -/
theorem C7_empty_ratings_raises :
    collaborative_filtering_recommendations qModel [] "u1" 10 = none ∧
    content_based_recommendations qModel [] msPop "u1" 10 = [] ∧
    collaborative_core qModel [⟨"u2", "m1", 5⟩] "u1" 10 = [] ∧
    get_popular_movies_fallback qModel [] [] 10 = [] := by
  refine ⟨rfl, rfl, ?_, rfl⟩
  decide

/-- **C8**: the recommendation computation is deterministic — for a fixed
numeric model, identical (ratings, items) snapshots and identical
parameters give identical results, for every algorithm mode. -/
theorem C8_determinism (nm : NumModel) (rs1 rs2 : List Rating) (ms1 ms2 : List Movie)
    (u1 u2 : String) (l1 l2 : ℕ) (hrs : rs1 = rs2) (hms : ms1 = ms2) (hu : u1 = u2)
    (hl : l1 = l2) :
    collaborative_filtering_recommendations nm rs1 u1 l1
        = collaborative_filtering_recommendations nm rs2 u2 l2 ∧
    content_based_recommendations nm rs1 ms1 u1 l1
        = content_based_recommendations nm rs2 ms2 u2 l2 ∧
    get_popular_movies_fallback nm rs1 ms1 l1 = get_popular_movies_fallback nm rs2 ms2 l2 ∧
    hybrid_recommendations nm rs1 ms1 u1 l1 = hybrid_recommendations nm rs2 ms2 u2 l2 := by
  subst hrs hms hu hl
  exact ⟨rfl, rfl, rfl, rfl⟩

/-- Witness for C8 at a concrete snapshot. -/
theorem C8_determinism_witness :
    collaborative_filtering_recommendations qModel rsPop "u1" 3
        = collaborative_filtering_recommendations qModel rsPop "u1" 3 ∧
    content_based_recommendations qModel rsPop msPop "u1" 3
        = content_based_recommendations qModel rsPop msPop "u1" 3 ∧
    get_popular_movies_fallback qModel rsPop msPop 3
        = get_popular_movies_fallback qModel rsPop msPop 3 ∧
    hybrid_recommendations qModel rsPop msPop "u1" 3
        = hybrid_recommendations qModel rsPop msPop "u1" 3 :=
  C8_determinism qModel rsPop rsPop msPop msPop "u1" "u1" 3 3 rfl rfl rfl rfl

/-- **C10**: in hybrid mode with `limit = 1` and a user with at least 5
ratings, the blended path's combined map is always empty (`cf_recs` is cut
to `limit // 2 = 0` entries and content is invoked with `limit // 2 = 0`),
so the popularity fallback is returned — regardless of what the
sub-recommenders would produce. -/
theorem C10_limit_one_falls_back (nm : NumModel) (rs : List Rating) (ms : List Movie)
    (user : String) (h : MIN_RATINGS_FOR_CF ≤ ratingCount rs user) :
    hybrid_recommendations nm rs ms user 1
      = some (get_popular_movies_fallback nm rs ms 1) := by
  rw [hybrid_blend_eq nm rs ms user 1 h]
  have hct : content_based_recommendations nm rs ms user (1 / 2) = [] := by
    have h12 : (1 : ℕ) / 2 = 0 := rfl
    rw [h12]
    exact content_limit_zero nm rs ms user
  rw [hct]
  have hblend : blendRecs (collaborative_core nm rs user 1) [] 1 = [] := by
    rw [blendRecs, blendDict]
    simp [sortDesc]
  rw [hblend]
  simp

/-- Witness for C10: on `rsC1` the collaborative recommender has two
non-empty candidate recommendations, yet hybrid with `limit = 1` returns
the popularity fallback. -/
theorem C10_limit_one_falls_back_witness :
    MIN_RATINGS_FOR_CF ≤ ratingCount rsC1 "u1" ∧
    hybrid_recommendations qModel rsC1 [] "u1" 1
      = some (get_popular_movies_fallback qModel rsC1 [] 1) :=
  ⟨by decide, C10_limit_one_falls_back qModel rsC1 [] "u1" (by decide)⟩

/-- **C2** (counterexample to the claim as stated): the popularity
fallback sorts only the rated movies, and then appends default-scored
(`2.5`) unrated movies AFTER sorting; with a single rating of score 1 the
rated movie scores `1 * log1p 1 < 2.5`, so the appended default entry
breaks the non-increasing order. -/
theorem C2_counterexample :
    ¬ scoresDesc (get_popular_movies_fallback qModel rsPop msPop 5) := by
  intro hcon
  have hev : get_popular_movies_fallback qModel rsPop msPop 5
      = [⟨"m1", 7 / 10⟩, ⟨"m2", 5 / 2⟩] := by
    norm_num +decide [get_popular_movies_fallback, ratedPart, ratedContribs, addContribution,
      updEntry, defaultPart, sortDesc, meanQ, qModel, qlog1p, rsPop, msPop,
      List.insertionSort, List.orderedInsert, recGe]
  rw [hev] at hcon
  norm_num [scoresDesc, recGe, List.pairwise_cons] at hcon

/-- **C2** (amended): scores are non-increasing for the collaborative and
content-based results and for the blended/content paths of hybrid; the
popularity fallback's RATED ranking is non-increasing and all appended
filler entries carry the constant default score `2.5`, but a filler entry
may exceed a preceding rated score, and hybrid inherits this whenever it
returns the fallback. -/
theorem C2_amended_sortedness (nm : NumModel) (rs : List Rating) (ms : List Movie)
    (user : String) (limit : ℕ) :
    (∀ out, collaborative_filtering_recommendations nm rs user limit = some out →
      scoresDesc out) ∧
    scoresDesc (content_based_recommendations nm rs ms user limit) ∧
    scoresDesc (ratedPart nm rs) ∧
    (∀ r ∈ get_popular_movies_fallback nm rs ms limit,
      r ∈ ratedPart nm rs ∨ r.score = 5 / 2) ∧
    (∀ out, hybrid_recommendations nm rs ms user limit = some out →
      scoresDesc out ∨ out = get_popular_movies_fallback nm rs ms limit) := by
  refine ⟨?_, scoresDesc_content nm rs ms user limit, sortDesc_sorted _, ?_, ?_⟩
  · intro out h
    rw [collaborative_filtering_recommendations] at h
    split at h
    · exact absurd h (by simp)
    · rw [← Option.some_inj.mp h]
      exact scoresDesc_collaborative_core nm rs user limit
  · intro r hr
    rw [get_popular_movies_fallback] at hr
    split at hr
    · exact absurd hr (List.not_mem_nil r)
    · have hr2 := List.take_subset limit _ hr
      revert hr2
      split
      · intro hr2
        rcases List.mem_append.mp hr2 with h1 | h1
        · exact Or.inl h1
        · exact Or.inr (mem_defaultPart rs ms r h1)
      · intro hr2
        exact Or.inl hr2
  · intro out h
    rcases hybrid_out_cases nm rs ms user limit out h with h1 | h1 | h1
    · exact Or.inr h1
    · exact Or.inl (h1 ▸ scoresDesc_blendRecs _ _ _)
    · exact Or.inl (h1 ▸ scoresDesc_content nm rs ms user limit)

/-- Witness for C2 (amended), exercising the hybrid conjunct on the
concrete snapshot `rsC1`, whose hybrid output is non-empty. -/
theorem C2_amended_sortedness_witness :
    scoresDesc [(⟨"m7", 28 / 25⟩ : RecItem)] ∨
    [(⟨"m7", 28 / 25⟩ : RecItem)] = get_popular_movies_fallback qModel rsC1 [] 2 :=
  (C2_amended_sortedness qModel rsC1 [] "u1" 2).2.2.2.2 [⟨"m7", 28 / 25⟩] (by
    norm_num +decide [hybrid_recommendations, ratingCount, MIN_RATINGS_FOR_CF,
      collaborative_filtering_recommendations, collaborative_core, cfContribs, neighborIdxs,
      argsortAsc, idxLe, simsOf, usersOf, colsOf, sortedKeys, rsC1, strLe, List.dedup,
      List.insertionSort, List.orderedInsert, cellOf, rowOf, meanQ, cosineSim, dotQ, normFactor,
      qModel, qsqrt, Int.toNat, addContribution, updEntry, sortDesc, recGe, List.range,
      content_based_recommendations, contentContribs, blendRecs, blendDict, addWeighted,
      setWeighted, get_popular_movies_fallback, ratedPart, ratedContribs, defaultPart,
      qlog1p, trivTfidf])

/-- **C9**: cosine similarity is total on degenerate input — a zero-norm
vector yields similarity 0 (in either argument position), and the norm
factors the implementation divides by are never zero (no division by
zero, no NaN), for any square-root function positive on positive input
(as the real square root is). -/
theorem C9_cosine_degeneracy (nm : NumModel) (hs : ∀ q : ℚ, 0 < q → 0 < nm.sqrtQ q)
    (u v : List ℚ) :
    (dotQ u u = 0 → cosineSim nm u v = 0 ∧ cosineSim nm v u = 0) ∧
    normFactor nm u * normFactor nm v ≠ 0 := by
  constructor
  · intro h
    have hz := eq_zero_of_dotQ_self_eq_zero u h
    constructor
    · rw [cosineSim, dotQ_zero_left u hz v, zero_div]
    · rw [cosineSim, dotQ_zero_right u hz v, zero_div]
  · exact ne_of_gt (mul_pos (normFactor_pos nm hs u) (normFactor_pos nm hs v))

/-- Witness for C9 on the zero vector `[0, 0]` against `[1, 2]`, with the
concrete square-root model. -/
theorem C9_cosine_degeneracy_witness :
    (cosineSim qModel [0, 0] [1, 2] = 0 ∧ cosineSim qModel [1, 2] [0, 0] = 0) ∧
    normFactor qModel [0, 0] * normFactor qModel [1, 2] ≠ 0 :=
  ⟨(C9_cosine_degeneracy qModel (fun q hq => qsqrt_pos q hq) [0, 0] [1, 2]).1
      (by norm_num [dotQ]),
   (C9_cosine_degeneracy qModel (fun q hq => qsqrt_pos q hq) [0, 0] [1, 2]).2⟩

/-- **C4**: every recommender's result has length at most the requested
limit and pairwise-distinct movie ids (item ids in the movie snapshot are
unique, per the data model). -/
theorem C4_length_and_distinct (nm : NumModel) (rs : List Rating) (ms : List Movie)
    (user : String) (limit : ℕ) (hms : (ms.map (·.id)).Nodup) :
    (∀ out, collaborative_filtering_recommendations nm rs user limit = some out →
      out.length ≤ limit ∧ distinctIds out) ∧
    ((content_based_recommendations nm rs ms user limit).length ≤ limit ∧
      distinctIds (content_based_recommendations nm rs ms user limit)) ∧
    ((get_popular_movies_fallback nm rs ms limit).length ≤ limit ∧
      distinctIds (get_popular_movies_fallback nm rs ms limit)) ∧
    (∀ out, hybrid_recommendations nm rs ms user limit = some out →
      out.length ≤ limit ∧ distinctIds out) := by
  refine ⟨?_,
    ⟨length_content nm rs ms user limit, nodupIds_content nm rs ms user limit⟩,
    ⟨length_popular nm rs ms limit, nodupIds_popular nm rs ms limit hms⟩, ?_⟩
  · intro out h
    rw [collaborative_filtering_recommendations] at h
    split at h
    · exact absurd h (by simp)
    · rw [← Option.some_inj.mp h]
      exact ⟨length_collaborative_core nm rs user limit,
        nodupIds_collaborative_core nm rs user limit⟩
  · intro out h
    rcases hybrid_out_cases nm rs ms user limit out h with h1 | h1 | h1
    · rw [h1]
      exact ⟨length_popular nm rs ms limit, nodupIds_popular nm rs ms limit hms⟩
    · rw [h1]
      exact ⟨length_blendRecs _ _ _, nodupIds_blendRecs _ _ _⟩
    · rw [h1]
      exact ⟨length_content nm rs ms user limit, nodupIds_content nm rs ms user limit⟩

/-- Witness for C4 at a concrete snapshot with distinct movie ids. -/
theorem C4_length_and_distinct_witness :
    (msPop.map (·.id)).Nodup ∧
    ((content_based_recommendations qModel rsPop msPop "u1" 3).length ≤ 3 ∧
      distinctIds (content_based_recommendations qModel rsPop msPop "u1" 3)) ∧
    ((get_popular_movies_fallback qModel rsPop msPop 3).length ≤ 3 ∧
      distinctIds (get_popular_movies_fallback qModel rsPop msPop 3)) :=
  ⟨by decide,
   (C4_length_and_distinct qModel rsPop msPop "u1" 3 (by decide)).2.1,
   (C4_length_and_distinct qModel rsPop msPop "u1" 3 (by decide)).2.2.1⟩

/-- Structure of the neighbour selection `argsort(sims)[::-1][1:11]` when
the value at index `t` is a strict maximum: `t` sits at position 0 of the
descending argsort, so dropping position 0 removes exactly `t`, and the
kept positions are a maximal set of other indices. -/
theorem argsort_neighbors_facts (vals : List ℚ) (t : ℕ) (htlt : t < vals.length)
    (hstrict : ∀ j, j < vals.length → j ≠ t → vals.getD j 0 < vals.getD t 0) :
    t ∉ (((argsortAsc vals).reverse.drop 1).take 10) ∧
    ((((argsortAsc vals).reverse.drop 1).take 10)).length = min 10 (vals.length - 1) ∧
    (∀ i ∈ ((argsortAsc vals).reverse.drop 1).take 10, i < vals.length ∧ i ≠ t) ∧
    (∀ j, j < vals.length → j ∉ ((argsortAsc vals).reverse.drop 1).take 10 → j ≠ t →
      ∀ i ∈ ((argsortAsc vals).reverse.drop 1).take 10,
        vals.getD j 0 ≤ vals.getD i 0) := by
  have hperm : List.Perm ((argsortAsc vals).reverse) (List.range vals.length) :=
    List.Perm.trans (List.reverse_perm _)
      (List.perm_insertionSort (idxLe vals) (List.range vals.length))
  have hsorted : ((argsortAsc vals).reverse).Pairwise (fun i j => idxLe vals j i) := by
    rw [List.pairwise_reverse]
    exact List.sorted_insertionSort (idxLe vals) (List.range vals.length)
  have htmem : t ∈ (argsortAsc vals).reverse :=
    hperm.mem_iff.mpr (List.mem_range.mpr htlt)
  obtain ⟨h0, tl, hcons⟩ := List.exists_cons_of_ne_nil (List.ne_nil_of_mem htmem)
  have hnodup : ((argsortAsc vals).reverse).Nodup := hperm.symm.nodup (List.nodup_range _)
  have hmem_lt : ∀ i ∈ (argsortAsc vals).reverse, i < vals.length := by
    intro i hi
    exact List.mem_range.mp (hperm.mem_iff.mp hi)
  have hhead : h0 = t := by
    by_contra hne
    have ht_in_tl : t ∈ tl := by
      rw [hcons] at htmem
      rcases List.mem_cons.mp htmem with h | h
      · exact absurd h (fun he => hne he.symm)
      · exact h
    have h0lt : h0 < vals.length :=
      hmem_lt h0 (by rw [hcons]; exact List.mem_cons_self _ _)
    have hrel : idxLe vals t h0 := by
      rw [hcons] at hsorted
      exact (List.pairwise_cons.mp hsorted).1 t ht_in_tl
    rw [idxLe] at hrel
    exact absurd hrel (not_le.mpr (hstrict h0 h0lt hne))
  have hlen_ord : ((argsortAsc vals).reverse).length = vals.length := by
    rw [List.length_reverse, argsortAsc,
      (List.perm_insertionSort (idxLe vals) (List.range vals.length)).length_eq]
    exact List.length_range _
  have htl_len : tl.length = vals.length - 1 := by
    rw [hcons] at hlen_ord
    simp only [List.length_cons] at hlen_ord
    omega
  have hdrop : ((argsortAsc vals).reverse).drop 1 = tl := by
    rw [hcons]
    rfl
  have ht_not_tl : t ∉ tl := by
    rw [hcons] at hnodup
    have := (List.nodup_cons.mp hnodup).1
    rw [hhead] at this
    exact this
  have htl_sorted : tl.Pairwise (fun i j => idxLe vals j i) := by
    rw [hcons] at hsorted
    exact (List.pairwise_cons.mp hsorted).2
  refine ⟨?_, ?_, ?_, ?_⟩
  · rw [hdrop]
    intro hc
    exact ht_not_tl (List.take_subset 10 tl hc)
  · rw [hdrop, List.length_take, htl_len]
  · intro i hi
    rw [hdrop] at hi
    have hitl := List.take_subset 10 tl hi
    refine ⟨hmem_lt i (by rw [hcons]; exact List.mem_cons_of_mem h0 hitl), ?_⟩
    intro he
    exact ht_not_tl (he ▸ hitl)
  · intro j hjlt hjnot hjne i hi
    rw [hdrop] at hi hjnot
    have hj_ord : j ∈ (argsortAsc vals).reverse :=
      hperm.mem_iff.mpr (List.mem_range.mpr hjlt)
    have hj_tl : j ∈ tl := by
      rw [hcons] at hj_ord
      rcases List.mem_cons.mp hj_ord with h | h
      · exact absurd (h.trans hhead) hjne
      · exact h
    have hj_drop : j ∈ tl.drop 10 := by
      have hj2 : j ∈ tl.take 10 ++ tl.drop 10 := by
        rw [List.take_append_drop]
        exact hj_tl
      rcases List.mem_append.mp hj2 with h | h
      · exact absurd h hjnot
      · exact h
    have hsplit : (tl.take 10 ++ tl.drop 10).Pairwise (fun i j => idxLe vals j i) := by
      rw [List.take_append_drop]
      exact htl_sorted
    have hres := (List.pairwise_append.mp hsplit).2.2 i hi j hj_drop
    rw [idxLe] at hres
    exact hres

/-- **C3** (counterexample to the claim as stated): with two users whose
rating vectors are identical, both tie at similarity 1, the stable
ascending argsort places the OTHER user last, so reversing and dropping
position 0 drops the other user and KEEPS the target itself: the neighbour
set is `{target}` and does not consist of the top similar other users. -/
theorem C3_counterexample :
    (usersOf rsTie).indexOf "u1" ∈ neighborIdxs qModel rsTie "u1" ∧
    (usersOf rsTie).indexOf "u2" ∉ neighborIdxs qModel rsTie "u1" := by
  constructor
  · norm_num +decide [neighborIdxs, argsortAsc, idxLe, simsOf, usersOf, colsOf, sortedKeys,
      rsTie, strLe, List.dedup, List.insertionSort, List.orderedInsert, cellOf, rowOf, meanQ,
      cosineSim, dotQ, normFactor, qModel, qsqrt, Int.toNat, List.range, List.indexOf,
      List.findIdx, List.findIdx.go, List.getD]
  · norm_num +decide [neighborIdxs, argsortAsc, idxLe, simsOf, usersOf, colsOf, sortedKeys,
      rsTie, strLe, List.dedup, List.insertionSort, List.orderedInsert, cellOf, rowOf, meanQ,
      cosineSim, dotQ, normFactor, qModel, qsqrt, Int.toNat, List.range, List.indexOf,
      List.findIdx, List.findIdx.go, List.getD]

/-- **C3** (amended): the neighbour set is positions 1..10 of the
descending argsort of the similarities.  Whenever the target user's
self-similarity is a STRICT maximum (no other user ties with it), this
excludes the target, keeps `min 10 (numUsers - 1)` other in-range users,
and every excluded other user has similarity no greater than every kept
neighbour; with ties at the maximum the dropped position need not be the
target (see the counterexample). -/
theorem C3_amended_neighbors (nm : NumModel) (rs : List Rating) (user : String)
    (hmem : user ∈ usersOf rs)
    (hstrict : ∀ j < (usersOf rs).length, j ≠ (usersOf rs).indexOf user →
      (simsOf nm rs user).getD j 0
        < (simsOf nm rs user).getD ((usersOf rs).indexOf user) 0) :
    (usersOf rs).indexOf user ∉ neighborIdxs nm rs user ∧
    (neighborIdxs nm rs user).length = min 10 ((usersOf rs).length - 1) ∧
    (∀ i ∈ neighborIdxs nm rs user,
      i < (usersOf rs).length ∧ i ≠ (usersOf rs).indexOf user) ∧
    (∀ j < (usersOf rs).length,
      j ∉ neighborIdxs nm rs user → j ≠ (usersOf rs).indexOf user →
      ∀ i ∈ neighborIdxs nm rs user,
        (simsOf nm rs user).getD j 0 ≤ (simsOf nm rs user).getD i 0) := by
  have hlen : (simsOf nm rs user).length = (usersOf rs).length := by
    rw [simsOf]
    exact List.length_map _ _
  have htlt : (usersOf rs).indexOf user < (simsOf nm rs user).length := by
    rw [hlen]
    exact List.indexOf_lt_length.mpr hmem
  have hstrict2 : ∀ j, j < (simsOf nm rs user).length →
      j ≠ (usersOf rs).indexOf user →
      (simsOf nm rs user).getD j 0
        < (simsOf nm rs user).getD ((usersOf rs).indexOf user) 0 := by
    intro j hj hne
    exact hstrict j (hlen ▸ hj) hne
  have hf := argsort_neighbors_facts (simsOf nm rs user)
    ((usersOf rs).indexOf user) htlt hstrict2
  have hnb : neighborIdxs nm rs user
      = ((argsortAsc (simsOf nm rs user)).reverse.drop 1).take 10 := rfl
  refine ⟨hnb ▸ hf.1, ?_, ?_, ?_⟩
  · rw [hnb, hf.2.1, hlen]
  · intro i hi
    rw [hnb] at hi
    have hif := hf.2.2.1 i hi
    exact ⟨hlen ▸ hif.1, hif.2⟩
  · intro j hjlt hjnot hjne i hi
    rw [hnb] at hjnot hi
    exact hf.2.2.2 j (hlen.symm ▸ hjlt) hjnot hjne i hi

/-- Witness for C3 (amended) on `rsStrict`, where the target's
self-similarity 1 strictly exceeds the other user's `24/25`. -/
theorem C3_amended_neighbors_witness :
    ("u1" ∈ usersOf rsStrict) ∧
    (usersOf rsStrict).indexOf "u1" ∉ neighborIdxs qModel rsStrict "u1" ∧
    (neighborIdxs qModel rsStrict "u1").length = min 10 ((usersOf rsStrict).length - 1) :=
  ⟨by decide,
   (C3_amended_neighbors qModel rsStrict "u1" (by decide) (by
      intro j hj hne
      have hlen2 : (usersOf rsStrict).length = 2 := by decide
      have hidx : (usersOf rsStrict).indexOf "u1" = 0 := by decide
      rw [hlen2] at hj
      rw [hidx] at hne
      rw [hidx]
      interval_cases j
      · exact absurd rfl hne
      · norm_num +decide [simsOf, usersOf, colsOf, sortedKeys, rsStrict, strLe, List.dedup,
          List.insertionSort, List.orderedInsert, cellOf, rowOf, meanQ, cosineSim, dotQ,
          normFactor, qModel, qsqrt, Int.toNat, List.getD])).1,
   (C3_amended_neighbors qModel rsStrict "u1" (by decide) (by
      intro j hj hne
      have hlen2 : (usersOf rsStrict).length = 2 := by decide
      have hidx : (usersOf rsStrict).indexOf "u1" = 0 := by decide
      rw [hlen2] at hj
      rw [hidx] at hne
      rw [hidx]
      interval_cases j
      · exact absurd rfl hne
      · norm_num +decide [simsOf, usersOf, colsOf, sortedKeys, rsStrict, strLe, List.dedup,
          List.insertionSort, List.orderedInsert, cellOf, rowOf, meanQ, cosineSim, dotQ,
          normFactor, qModel, qsqrt, Int.toNat, List.getD])).2.1⟩

set_option maxHeartbeats 1600000 in
/-- **C1** (counterexample to the claim as stated): the blend loop iterates
over `cf_recs[:limit // 2]`, NOT over the full collaborative result.  On
`rsC1` with `limit = 2` the collaborative result has two entries
(`m7`, `m6`), but only the first contributes to the combined map: the
code returns `[(m7, 1.12)]`, while the claimed construction (every
collaborative item contributing `score * 0.7`) would return
`[(m7, 1.12), (m6, 0.28)]`. -/
theorem C1_counterexample :
    hybrid_recommendations qModel rsC1 [] "u1" 2
      ≠ some (claimedBlendC1 qModel rsC1 [] "u1" 2) := by
  have h1 : hybrid_recommendations qModel rsC1 [] "u1" 2 = some [⟨"m7", 28 / 25⟩] := by
    norm_num +decide [hybrid_recommendations, ratingCount, MIN_RATINGS_FOR_CF,
      collaborative_filtering_recommendations, collaborative_core, cfContribs, neighborIdxs,
      argsortAsc, idxLe, simsOf, usersOf, colsOf, sortedKeys, rsC1, strLe, List.dedup,
      List.insertionSort, List.orderedInsert, cellOf, rowOf, meanQ, cosineSim, dotQ, normFactor,
      qModel, qsqrt, Int.toNat, addContribution, updEntry, sortDesc, recGe, List.range,
      content_based_recommendations, contentContribs, blendRecs, blendDict, addWeighted,
      setWeighted, get_popular_movies_fallback, ratedPart, ratedContribs, defaultPart,
      qlog1p, trivTfidf]
  have h2 : claimedBlendC1 qModel rsC1 [] "u1" 2 = [⟨"m7", 28 / 25⟩, ⟨"m6", 7 / 25⟩] := by
    norm_num +decide [claimedBlendC1, collaborative_core, cfContribs, neighborIdxs,
      argsortAsc, idxLe, simsOf, usersOf, colsOf, sortedKeys, rsC1, strLe, List.dedup,
      List.insertionSort, List.orderedInsert, cellOf, rowOf, meanQ, cosineSim, dotQ, normFactor,
      qModel, qsqrt, Int.toNat, addContribution, updEntry, sortDesc, recGe, List.range,
      content_based_recommendations, contentContribs, blendDict, addWeighted,
      setWeighted, qlog1p, trivTfidf]
  rw [h1, h2]
  simp

/-- **C1** (amended): in the blended state (`n ≥ 5`), the combined map's
keys are the FIRST `limit // 2` collaborative entries followed by the
content entries not already present, each key's combined score is
`0.7 * (its collaborative score among the first limit // 2 entries, else 0)
+ 0.3 * (its content score, else 0)`, and the hybrid output is the map
sorted by combined score descending and truncated to `limit` (or the
popularity fallback if that map is empty). -/
theorem C1_amended_hybrid_blend (nm : NumModel) (rs : List Rating) (ms : List Movie)
    (user : String) (limit : ℕ) (h : MIN_RATINGS_FOR_CF ≤ ratingCount rs user) :
    collaborative_filtering_recommendations nm rs user limit
        = some (collaborative_core nm rs user limit) ∧
    (blendDict (collaborative_core nm rs user limit)
        (content_based_recommendations nm rs ms user (limit / 2)) limit).map (·.1)
      = ((collaborative_core nm rs user limit).take (limit / 2)).map (·.movieId)
        ++ ((content_based_recommendations nm rs ms user (limit / 2)).filter
            (fun c => decide (c.movieId ∉ ((collaborative_core nm rs user limit).take
              (limit / 2)).map (·.movieId)))).map (·.movieId) ∧
    (∀ p ∈ blendDict (collaborative_core nm rs user limit)
        (content_based_recommendations nm rs ms user (limit / 2)) limit,
      p.2 = ((lookupRec ((collaborative_core nm rs user limit).take (limit / 2)) p.1).getD 0)
              * (7 / 10)
          + ((lookupRec (content_based_recommendations nm rs ms user (limit / 2)) p.1).getD 0)
              * (3 / 10)) ∧
    hybrid_recommendations nm rs ms user limit
      = some (
          if ((sortDesc ((blendDict (collaborative_core nm rs user limit)
                (content_based_recommendations nm rs ms user (limit / 2)) limit).map
              (fun p => (⟨p.1, p.2⟩ : RecItem)))).take limit).isEmpty
          then get_popular_movies_fallback nm rs ms limit
          else (sortDesc ((blendDict (collaborative_core nm rs user limit)
                (content_based_recommendations nm rs ms user (limit / 2)) limit).map
              (fun p => (⟨p.1, p.2⟩ : RecItem)))).take limit) := by
  have hcf : (((collaborative_core nm rs user limit).take (limit / 2)).map
      (·.movieId)).Nodup :=
    ((List.take_sublist (limit / 2) _).map (fun r : RecItem => r.movieId)).nodup
      (nodupIds_collaborative_core nm rs user limit)
  have hct : ((content_based_recommendations nm rs ms user (limit / 2)).map
      (·.movieId)).Nodup :=
    nodupIds_content nm rs ms user (limit / 2)
  refine ⟨?_, blendDict_keys _ _ _ hcf hct, blendDict_values _ _ _ hcf hct, ?_⟩
  · rw [collaborative_filtering_recommendations]
    simp [rs_not_empty_of_count rs user h]
  · rw [hybrid_blend_eq nm rs ms user limit h]
    rfl

/-- Witness for C1 (amended) on the concrete snapshot `rsC1` with
`limit = 2`. -/
theorem C1_amended_hybrid_blend_witness :
    MIN_RATINGS_FOR_CF ≤ ratingCount rsC1 "u1" ∧
    collaborative_filtering_recommendations qModel rsC1 "u1" 2
        = some (collaborative_core qModel rsC1 "u1" 2) ∧
    hybrid_recommendations qModel rsC1 [] "u1" 2
      = some (
          if ((sortDesc ((blendDict (collaborative_core qModel rsC1 "u1" 2)
                (content_based_recommendations qModel rsC1 [] "u1" (2 / 2)) 2).map
              (fun p => (⟨p.1, p.2⟩ : RecItem)))).take 2).isEmpty
          then get_popular_movies_fallback qModel rsC1 [] 2
          else (sortDesc ((blendDict (collaborative_core qModel rsC1 "u1" 2)
                (content_based_recommendations qModel rsC1 [] "u1" (2 / 2)) 2).map
              (fun p => (⟨p.1, p.2⟩ : RecItem)))).take 2) :=
  ⟨by decide,
   (C1_amended_hybrid_blend qModel rsC1 [] "u1" 2 (by decide)).1,
   (C1_amended_hybrid_blend qModel rsC1 [] "u1" 2 (by decide)).2.2.2⟩

end MovieRec
